import Mathlib

/-!
Policy store of ottoscalr (`pkg/policy/store.go`).

A shallow embedding of `PolicyStore` and of the parts of its environment the
store calls into: the listing/lookup client and `sort.Slice`.
-/

namespace Ottoscalr

/-! ## Data model -/

/-- Modelled from the spec: the `PolicySpec` type declaration is not among the
sources; the store reads `Spec.RiskIndex` (a Go `int`) and `Spec.IsDefault`,
the remaining scaling-rule parameters are carried as an uninterpreted list. -/
structure PolicySpec where
  RiskIndex : Int
  IsDefault : Bool
  Params : List Int
deriving DecidableEq, Repr, Inhabited

/-- Modelled from the spec: the `Policy` type declaration is not among the
sources; the store reads `Name` (object metadata) and `Spec`. -/
structure Policy where
  Name : String
  Spec : PolicySpec
deriving DecidableEq, Repr, Inhabited

/-- Go `error` values seen by the store: the two package-level variables, an
error built at a call site by `errors.New` / `fmt.Errorf` (known by its text),
and an error handed back by the client. -/
inductive Error where
  | pkgVar (text : String)
  | text (text : String)
  | api (reason : String) (name : String)
deriving DecidableEq, Repr, Inhabited

/-- Package variable `NO_NEXT_POLICY_FOUND_ERR`. -/
def NO_NEXT_POLICY_FOUND_ERR : Error := Error.pkgVar "no next policy found"

/-- Package variable `NO_PREV_POLICY_FOUND_ERR`. -/
def NO_PREV_POLICY_FOUND_ERR : Error := Error.pkgVar "no previous policy found"

/-- Outcome of a call returning `(value, error)`: the value with a nil error,
or no value with the error; `panic` is a run-time panic (index out of range),
which a caller passes on. -/
inductive Result (α : Type) where
  | ok (v : α)
  | err (e : Error)
  | panic
deriving DecidableEq, Repr

/-- The client the store holds (`k8sClient`): `List` fills a policy list or
fails, `Get` fetches the policy of a given name or fails. -/
structure Client where
  List : Result (List Policy)
  Get : String → Result Policy

/-- Lookup by name over a policy set, as the API server answers it: the stored
policy of that name, else a NotFound status error. -/
def getByName (items : List Policy) (name : String) : Result Policy :=
  match items.find? (fun p => decide (p.Name = name)) with
  | some p => Result.ok p
  | none => Result.err (Error.api "NotFound" name)

/-- A reachable client whose backing store holds exactly `items`. -/
def storeOf (items : List Policy) : Client :=
  { List := Result.ok items, Get := getByName items }

/-- A client whose listing and lookups all fail with `e`. -/
def failingClient (e : Error) : Client :=
  { List := Result.err e, Get := fun _ => Result.err e }

/-! ## `sort.Slice` -/

/-- The comparator every call site passes to `sort.Slice`:
`Items[i].Spec.RiskIndex < Items[j].Spec.RiskIndex`. -/
def less (a b : Policy) : Bool := decide (a.Spec.RiskIndex < b.Spec.RiskIndex)

/-- Inner loop of the library's insertion sort: `x = data[j]` is swapped with
its left neighbour while `lt x data[j-1]`. The argument is the already sorted
part to the left of `x`, nearest neighbour first. -/
def sinkLeft (lt : Policy → Policy → Bool) (x : Policy) : List Policy → List Policy
  | [] => [x]
  | y :: ys => if lt x y then y :: sinkLeft lt x ys else x :: y :: ys

/-- `sort.Slice(data, lt)`: the library's insertion sort (the path it takes for
slices of at most 12 elements; for longer ones it runs pattern-defeating
quicksort, which returns the same slice whenever no two keys are equal). -/
def sortSlice (lt : Policy → Policy → Bool) (data : List Policy) : List Policy :=
  (data.foldl (fun sortedRev x => sinkLeft lt x sortedRev) []).reverse

/-! ## `PolicyStore` -/

/-- `GetSortedPolicies`. -/
def GetSortedPolicies (ps : Client) : Result (List Policy) :=
  match ps.List with
  | Result.err err2 => Result.err err2
  | Result.panic => Result.panic
  | Result.ok items => Result.ok (sortSlice less items)

/-- `GetSafestPolicy`. -/
def GetSafestPolicy (ps : Client) : Result Policy :=
  match ps.List with
  | Result.err err => Result.err err
  | Result.panic => Result.panic
  | Result.ok items =>
    if items.length = 0 then Result.err (Error.text "no policies found")
    else
      match sortSlice less items with
      | p :: _ => Result.ok p
      | [] => Result.panic

/-- The `for i, policy := range items` loop of `GetNextPolicy` and
`GetNextPolicyByName`, entered at index `i` with `rest` the entries from `i`
on: at the first entry satisfying `hit`, return `items[i+1]` when
`i+1 < len(items)`, else break; after the loop, `NO_NEXT_POLICY_FOUND_ERR`. -/
def nextLoop (items : List Policy) (hit : Policy → Bool) :
    Nat → List Policy → Result Policy
  | _, [] => Result.err NO_NEXT_POLICY_FOUND_ERR
  | i, policy :: rest =>
    if hit policy then
      if h : i + 1 < items.length then Result.ok (items.get ⟨i + 1, h⟩)
      else Result.err NO_NEXT_POLICY_FOUND_ERR
    else nextLoop items hit (i + 1) rest

/-- The `for i, policy := range items` loop of `GetPreviousPolicyByName`,
entered at index `i` with `rest` the entries from `i` on: at the first entry
satisfying `hit`, return `items[i-1]` when `i-1 >= 0`, else break; after the
loop, `NO_PREV_POLICY_FOUND_ERR`. -/
def prevLoop (items : List Policy) (hit : Policy → Bool) :
    (i : Nat) → (rest : List Policy) → i + rest.length = items.length → Result Policy
  | _, [], _ => Result.err NO_PREV_POLICY_FOUND_ERR
  | i, policy :: rest, hlen =>
    if hit policy then
      if (i : Int) - 1 ≥ 0 then
        Result.ok (items.get ⟨i - 1, by simp only [List.length_cons] at hlen; omega⟩)
      else Result.err NO_PREV_POLICY_FOUND_ERR
    else prevLoop items hit (i + 1) rest (by simp only [List.length_cons] at hlen; omega)

/-- `GetNextPolicy`. -/
def GetNextPolicy (ps : Client) (currentPolicy : Policy) : Result Policy :=
  match ps.List with
  | Result.err err => Result.err err
  | Result.panic => Result.panic
  | Result.ok items =>
    let sorted := sortSlice less items
    nextLoop sorted
      (fun policy => decide (policy.Spec.RiskIndex = currentPolicy.Spec.RiskIndex)) 0 sorted

/-- `GetPolicyByName`. -/
def GetPolicyByName (ps : Client) (name : String) : Result Policy :=
  match ps.Get name with
  | Result.err err => Result.err err
  | Result.panic => Result.panic
  | Result.ok policy => Result.ok policy

/-- `GetNextPolicyByName`. -/
def GetNextPolicyByName (ps : Client) (name : String) : Result Policy :=
  match GetPolicyByName ps name with
  | Result.err err => Result.err err
  | Result.panic => Result.panic
  | Result.ok currentPolicy =>
    match GetSortedPolicies ps with
    | Result.err err2 => Result.err err2
    | Result.panic => Result.panic
    | Result.ok policies =>
      nextLoop policies (fun policy => decide (policy.Name = currentPolicy.Name)) 0 policies

/-- `GetPreviousPolicyByName`. -/
def GetPreviousPolicyByName (ps : Client) (name : String) : Result Policy :=
  match GetPolicyByName ps name with
  | Result.err err => Result.err err
  | Result.panic => Result.panic
  | Result.ok currentPolicy =>
    match GetSortedPolicies ps with
    | Result.err err2 => Result.err err2
    | Result.panic => Result.panic
    | Result.ok policies =>
      prevLoop policies (fun policy => decide (policy.Name = currentPolicy.Name)) 0 policies
        (Nat.zero_add _)

/-- `isDefault`. -/
def isDefault (policy : Policy) : Bool := policy.Spec.IsDefault

/-- The `for _, policy := range items` loop of `GetDefaultPolicy`. -/
def defaultLoop : List Policy → Result Policy
  | [] => Result.err (Error.text "No default policy found")
  | policy :: rest => if isDefault policy then Result.ok policy else defaultLoop rest

/-- `GetDefaultPolicy`. -/
def GetDefaultPolicy (ps : Client) : Result Policy :=
  match ps.List with
  | Result.err err => Result.err err
  | Result.panic => Result.panic
  | Result.ok items =>
    if items.length = 0 then Result.err (Error.text "no policies found")
    else defaultLoop (sortSlice less items)

/-! ## Walking the ladder -/

/-- Record of a walk up the ladder: the policies visited in order, the number
of successful `GetNextPolicyByName` calls, and the outcome of the call that
ended the walk (`none` when the walk was cut short by its call budget). -/
structure Walk where
  visited : List Policy
  steps : Nat
  stopped : Option (Result Policy)
deriving DecidableEq, Repr

/-- From `current`, apply `GetNextPolicyByName` to the name of the last policy
reached, again and again, until a call does not succeed; at most `fuel` calls
are made. -/
def climb (ps : Client) : Nat → Policy → Walk
  | 0, current => { visited := [current], steps := 0, stopped := none }
  | fuel + 1, current =>
    match GetNextPolicyByName ps current.Name with
    | Result.ok next =>
      let rest := climb ps fuel next
      { visited := current :: rest.visited, steps := rest.steps + 1, stopped := rest.stopped }
    | Result.err e =>
      { visited := [current], steps := 0, stopped := some (Result.err e) }
    | Result.panic => { visited := [current], steps := 0, stopped := some Result.panic }

/-- The walk of the whole ladder: start from `GetSafestPolicy`, then climb. -/
def walkLadder (ps : Client) (fuel : Nat) : Result Walk :=
  match GetSafestPolicy ps with
  | Result.err err => Result.err err
  | Result.panic => Result.panic
  | Result.ok first => Result.ok (climb ps fuel first)

/-! ## Recommendation types (`api/v1alpha1/policyrecommendation_types.go`) -/

/-- Go's `int` on the 64-bit targets the operator is built for: an integer
`val` with `-2^63 ≤ val < 2^63`. -/
structure GoInt where
  val : Int
  inRange : -9223372036854775808 ≤ val ∧ val < 9223372036854775808
deriving DecidableEq, Repr

/-- `HPAConfiguration`: three Go `int` fields, declared without any validation. -/
structure HPAConfiguration where
  Min : GoInt
  Max : GoInt
  TargetMetricValue : GoInt
deriving DecidableEq, Repr

/-- `WorkloadMeta`: the embedded type meta (kind, API version), name, namespace. -/
structure WorkloadMeta where
  Kind : String
  APIVersion : String
  Name : String
  Namespace : String
deriving DecidableEq, Repr, Inhabited

/-- `PolicyRecommendationSpec`; the two `metav1.Time` fields are carried as
seconds. -/
structure PolicyRecommendationSpec where
  WorkloadMeta : WorkloadMeta
  TargetHPAConfiguration : HPAConfiguration
  CurrentHPAConfiguration : HPAConfiguration
  Policy : String
  GeneratedAt : Int
  QueuedForExecution : Bool
  QueuedForExecutionAt : Int
deriving DecidableEq, Repr

/-- The invariant in the words of the specification: min, max and
targetMetricValue non-negative, and min ≤ max. -/
def specInvariant (c : HPAConfiguration) : Prop :=
  0 ≤ c.Min.val ∧ 0 ≤ c.Max.val ∧ 0 ≤ c.TargetMetricValue.val ∧ c.Min.val ≤ c.Max.val

/-- An `HPAConfiguration` value with min above max and a negative target. -/
def invertedBounds : HPAConfiguration :=
  { Min := ⟨5, by decide⟩, Max := ⟨1, by decide⟩, TargetMetricValue := ⟨-4, by decide⟩ }

/-- The first configuration of the scenario: min 5, max 10, target 4. -/
def scenarioBounds : HPAConfiguration :=
  { Min := ⟨5, by decide⟩, Max := ⟨10, by decide⟩, TargetMetricValue := ⟨4, by decide⟩ }

/-- The second configuration of the scenario: min 5, max 8, target 10. -/
def scenarioTarget : HPAConfiguration :=
  { Min := ⟨5, by decide⟩, Max := ⟨8, by decide⟩, TargetMetricValue := ⟨10, by decide⟩ }

/-- A recommendation spec for `svc` that moves it from the first to the second
configuration of the scenario. -/
def scenarioRecommendation : PolicyRecommendationSpec :=
  { WorkloadMeta :=
      { Kind := "Deployment", APIVersion := "apps/v1", Name := "svc", Namespace := "default" },
    TargetHPAConfiguration := scenarioTarget,
    CurrentHPAConfiguration := scenarioBounds,
    Policy := "B", GeneratedAt := 0, QueuedForExecution := true, QueuedForExecutionAt := 0 }

/-- A recommendation spec carrying `invertedBounds` as target and as current
configuration. -/
def invertedRecommendation : PolicyRecommendationSpec :=
  { WorkloadMeta :=
      { Kind := "Deployment", APIVersion := "apps/v1", Name := "svc", Namespace := "default" },
    TargetHPAConfiguration := invertedBounds,
    CurrentHPAConfiguration := invertedBounds,
    Policy := "A", GeneratedAt := 0, QueuedForExecution := false, QueuedForExecutionAt := 0 }

/-! ## Autoscaler reconciler -/

/-- Modelled from the spec: the workload reference `{kind, name, namespace}`
that identifies a workload (`ns` is its namespace); the client's sources are
not present, only its test. -/
structure WorkloadRef where
  kind : String
  name : String
  ns : String
deriving DecidableEq, Repr, Inhabited

/-- Modelled from the spec: `scaleTargetRef{name, kind}` of an autoscaler
resource. -/
structure ScaleTargetRef where
  name : String
  kind : String
deriving DecidableEq, Repr, Inhabited

/-- Modelled from the spec: the external `AutoscalerResource`,
`{scaleTargetRef{name,kind}, min, max, targetMetricValue, labels}`. -/
structure AutoscalerResource where
  scaleTargetRef : ScaleTargetRef
  min : Int
  max : Int
  targetMetricValue : Int
  labels : List (String × String)
deriving DecidableEq, Repr, Inhabited

/-- Modelled from the spec: the backing registry of autoscaler resources, each
stored under the identity of the workload it is bound to. -/
abbrev Registry := List (WorkloadRef × AutoscalerResource)

/-- Modelled from the spec: the look-up of "the resource bound to `workload` by
identity". -/
def boundResource (reg : Registry) (workload : WorkloadRef) : Option AutoscalerResource :=
  (reg.find? (fun entry => decide (entry.1 = workload))).map (fun entry => entry.2)

/-- The resources the registry holds for `workload`. -/
def resourcesOf (reg : Registry) (workload : WorkloadRef) : List AutoscalerResource :=
  (reg.filter (fun entry => decide (entry.1 = workload))).map (fun entry => entry.2)

/-- Modelled from the spec: `CreateOrUpdateAutoscaler` of the HPA client, whose
implementation is not among the sources (only its test is), against a
reachable backend: "looks up the resource bound to `workload` by identity; if
absent, creates one with `scaleTargetRef` = workload, the given bounds and
labels, returning operation tag created; if present, updates bounds and labels
in place, returning updated". Returns the tag and the registry left behind. -/
def CreateOrUpdateAutoscaler (reg : Registry) (workload : WorkloadRef)
    (labels : List (String × String)) (max min targetMetricValue : Int) :
    String × Registry :=
  match boundResource reg workload with
  | none =>
    ("created",
      reg ++ [(workload,
        { scaleTargetRef := { name := workload.name, kind := workload.kind },
          min := min, max := max, targetMetricValue := targetMetricValue,
          labels := labels })])
  | some _ =>
    ("updated",
      reg.map (fun entry =>
        if entry.1 = workload then
          (entry.1, { entry.2 with
            min := min, max := max, targetMetricValue := targetMetricValue,
            labels := labels })
        else entry))

/-- The workload of the scenario: deployment `svc`. -/
def svc : WorkloadRef := { kind := "Deployment", name := "svc", ns := "default" }

/-- The labels of the scenario. -/
def ottoscalrLabels : List (String × String) := [("created-by", "ottoscalr")]

/-- A registry that holds a resource of another workload only. -/
def otherRegistry : Registry :=
  [({ kind := "Deployment", name := "other", ns := "default" },
    { scaleTargetRef := { name := "other", kind := "Deployment" },
      min := 1, max := 5, targetMetricValue := 50, labels := [] })]

/-! ## Orderings by riskIndex -/

/-- Descending by riskIndex: the order of the sorted part as `sinkLeft` sees it. -/
def Descending (l : List Policy) : Prop :=
  l.Pairwise (fun a b => b.Spec.RiskIndex ≤ a.Spec.RiskIndex)

/-- Ascending by riskIndex. -/
def Ascending (l : List Policy) : Prop :=
  l.Pairwise (fun a b => a.Spec.RiskIndex ≤ b.Spec.RiskIndex)

/-! ## The scenario ladder of the specification -/

/-- Policy `A` of the scenario: risk 1, default. -/
def policyA : Policy := { Name := "A", Spec := { RiskIndex := 1, IsDefault := true, Params := [] } }

/-- Policy `B` of the scenario: risk 5. -/
def policyB : Policy := { Name := "B", Spec := { RiskIndex := 5, IsDefault := false, Params := [] } }

/-- Policy `C` of the scenario: risk 9. -/
def policyC : Policy := { Name := "C", Spec := { RiskIndex := 9, IsDefault := false, Params := [] } }

/-- The scenario's policy set, in a listing order that is not the ladder order. -/
def scenario : List Policy := [policyC, policyA, policyB]

/-- Policy `D`: risk 7, flagged default along with `A`. -/
def policyD : Policy := { Name := "D", Spec := { RiskIndex := 7, IsDefault := true, Params := [] } }

/-- A policy set with two flagged entries, the riskier one listed first. -/
def twoDefaults : List Policy := [policyD, policyB, policyA]

/-- A policy set with no flagged entry. -/
def noDefaults : List Policy := [policyC, policyB]

/-- An error of the backing store, as the client reports an unreachable server. -/
def unavailable : Error := Error.api "ServiceUnavailable" ""

/-- A policy value that is not in the scenario set but has the riskIndex of `B`. -/
def offLadder : Policy :=
  { Name := "off-ladder", Spec := { RiskIndex := 5, IsDefault := true, Params := [3] } }

/-- Policy `E`: same riskIndex as `B`, another name. -/
def policyE : Policy := { Name := "E", Spec := { RiskIndex := 5, IsDefault := false, Params := [] } }

/-! ## The sort: permutation and order -/

theorem sinkLeft_perm (lt : Policy → Policy → Bool) (x : Policy) (l : List Policy) :
    (sinkLeft lt x l).Perm (x :: l) := by
  induction l with
  | nil => exact List.Perm.refl _
  | cons y ys ih =>
    unfold sinkLeft
    split
    · exact (List.Perm.cons y ih).trans (List.Perm.swap x y ys)
    · exact List.Perm.refl _

theorem foldl_sinkLeft_perm (lt : Policy → Policy → Bool) (data acc : List Policy) :
    (data.foldl (fun sortedRev x => sinkLeft lt x sortedRev) acc).Perm (data ++ acc) := by
  induction data generalizing acc with
  | nil => exact List.Perm.refl _
  | cons x xs ih =>
    simp only [List.foldl_cons, List.cons_append]
    refine (ih _).trans ?_
    refine (List.Perm.append_left xs (sinkLeft_perm lt x acc)).trans ?_
    exact List.perm_middle

theorem sortSlice_perm (lt : Policy → Policy → Bool) (data : List Policy) :
    (sortSlice lt data).Perm data := by
  unfold sortSlice
  refine (List.reverse_perm _).trans ?_
  simpa using foldl_sinkLeft_perm lt data []

theorem sinkLeft_descending (x : Policy) (l : List Policy) (h : Descending l) :
    Descending (sinkLeft less x l) := by
  induction l with
  | nil => simp [sinkLeft, Descending]
  | cons y ys ih =>
    have hy := List.pairwise_cons.mp h
    unfold sinkLeft
    by_cases hxy : less x y = true
    · rw [if_pos hxy]
      have hlt : x.Spec.RiskIndex < y.Spec.RiskIndex := by simpa [less] using hxy
      refine List.pairwise_cons.mpr ⟨?_, ih hy.2⟩
      intro z hz
      rcases (List.mem_cons.mp ((sinkLeft_perm less x ys).subset hz)) with rfl | hz
      · exact le_of_lt hlt
      · exact hy.1 z hz
    · rw [if_neg hxy]
      have hle : y.Spec.RiskIndex ≤ x.Spec.RiskIndex := by simpa [less] using hxy
      refine List.pairwise_cons.mpr ⟨?_, h⟩
      intro z hz
      rcases List.mem_cons.mp hz with rfl | hz
      · exact hle
      · exact le_trans (hy.1 z hz) hle

theorem foldl_sinkLeft_descending (data acc : List Policy) (h : Descending acc) :
    Descending (data.foldl (fun sortedRev x => sinkLeft less x sortedRev) acc) := by
  induction data generalizing acc with
  | nil => exact h
  | cons x xs ih => exact ih _ (sinkLeft_descending x acc h)

theorem sortSlice_ascending (data : List Policy) : Ascending (sortSlice less data) := by
  unfold sortSlice Ascending
  rw [List.pairwise_reverse]
  exact foldl_sinkLeft_descending data [] List.Pairwise.nil

/-! ## The range loops -/

theorem getElem_at (front : List Policy) (q : Policy) (post : List Policy) (i : Nat)
    (hi : i = front.length) (h : i < (front ++ q :: post).length) :
    (front ++ q :: post).get ⟨i, h⟩ = q := by
  subst hi
  simp [List.getElem_append_right]

theorem getElem_after (front : List Policy) (p q : Policy) (post : List Policy)
    (h : front.length + 1 < (front ++ p :: q :: post).length) :
    (front ++ p :: q :: post).get ⟨front.length + 1, h⟩ = q := by
  simp [List.getElem_append_right]

theorem nextLoop_no_hit (items : List Policy) (hit : Policy → Bool) (i : Nat)
    (rest : List Policy) (h : ∀ q ∈ rest, hit q = false) :
    nextLoop items hit i rest = Result.err NO_NEXT_POLICY_FOUND_ERR := by
  induction rest generalizing i with
  | nil => rfl
  | cons a rest ih =>
    have ha : hit a = false := h a (List.mem_cons_self a rest)
    simp only [nextLoop, ha, Bool.false_eq_true, if_false]
    exact ih (i + 1) (fun q hq => h q (List.mem_cons_of_mem a hq))

theorem nextLoop_hit_last (hit : Policy → Bool) (items front pre : List Policy) (p : Policy)
    (hitems : items = front ++ pre ++ [p])
    (hpre : ∀ q ∈ pre, hit q = false) :
    nextLoop items hit front.length (pre ++ [p]) = Result.err NO_NEXT_POLICY_FOUND_ERR := by
  induction pre generalizing front with
  | nil =>
    subst hitems
    by_cases hp : hit p = true
    · simp [nextLoop, hp]
    · simp [nextLoop, hp]
  | cons a pre ih =>
    have ha : hit a = false := hpre a (List.mem_cons_self a pre)
    simp only [List.cons_append, nextLoop, ha, Bool.false_eq_true, if_false]
    have := ih (front ++ [a]) (by simp [hitems]) (fun q hq => hpre q (List.mem_cons_of_mem a hq))
    simpa using this

theorem nextLoop_hit (hit : Policy → Bool) (items front pre : List Policy) (p q : Policy)
    (post : List Policy) (hitems : items = front ++ pre ++ p :: q :: post)
    (hpre : ∀ r ∈ pre, hit r = false) (hp : hit p = true) :
    nextLoop items hit front.length (pre ++ p :: q :: post) = Result.ok q := by
  induction pre generalizing front with
  | nil =>
    have hitems2 : items = front ++ p :: q :: post := by simpa using hitems
    subst hitems2
    simp only [List.nil_append, nextLoop, hp, if_true]
    rw [dif_pos (by simp)]
    congr 1
    exact getElem_after front p q post _
  | cons a pre ih =>
    have ha : hit a = false := hpre a (List.mem_cons_self a pre)
    simp only [List.cons_append, nextLoop, ha, Bool.false_eq_true, if_false]
    have := ih (front ++ [a]) (by simp [hitems]) (fun r hr => hpre r (List.mem_cons_of_mem a hr))
    simpa using this

theorem prevLoop_first (hit : Policy → Bool) (items : List Policy) (p : Policy)
    (post : List Policy) (hp : hit p = true)
    (hlen : 0 + (p :: post).length = items.length) :
    prevLoop items hit 0 (p :: post) hlen = Result.err NO_PREV_POLICY_FOUND_ERR := by
  simp [prevLoop, hp]

theorem prevLoop_hit (hit : Policy → Bool) (items front pre : List Policy) (q p : Policy)
    (post : List Policy) (hitems : items = front ++ pre ++ q :: p :: post)
    (hpre : ∀ r ∈ pre, hit r = false) (hq : hit q = false) (hp : hit p = true)
    (hlen : front.length + (pre ++ q :: p :: post).length = items.length) :
    prevLoop items hit front.length (pre ++ q :: p :: post) hlen = Result.ok q := by
  induction pre generalizing front with
  | nil =>
    have hitems2 : items = front ++ q :: p :: post := by simpa using hitems
    subst hitems2
    simp only [List.nil_append, prevLoop, hq, hp, Bool.false_eq_true, if_false, if_true]
    rw [if_pos (by omega)]
    congr 1
    exact getElem_at front q (p :: post) _ (by omega) _
  | cons a pre ih =>
    have ha : hit a = false := hpre a (List.mem_cons_self a pre)
    simp only [List.cons_append, prevLoop, ha, Bool.false_eq_true, if_false]
    have := ih (front ++ [a]) (by simp [hitems]) (fun r hr => hpre r (List.mem_cons_of_mem a hr))
      (by simp [hitems]; omega)
    simpa using this

/-! ## The ladder: layout of the sorted listing -/

theorem key_ne_of_nodup {κ : Type} (f : Policy → κ) (pre post : List Policy) (P : Policy)
    (h : ((pre ++ P :: post).map f).Nodup) (r : Policy) (hr : r ∈ pre) : f r ≠ f P := by
  rw [List.map_append, List.map_cons] at h
  have hdis := (List.nodup_append.mp h).2.2
  intro e
  exact hdis (List.mem_map_of_mem f hr) (e ▸ List.mem_cons_self _ _)

theorem sortSlice_nodup {κ : Type} (f : Policy → κ) (items : List Policy)
    (h : (items.map f).Nodup) : ((sortSlice less items).map f).Nodup :=
  (((sortSlice_perm less items).map f).nodup_iff).mpr h

theorem sortSlice_strict (items : List Policy)
    (hrisk : (items.map (fun p => p.Spec.RiskIndex)).Nodup) :
    (sortSlice less items).Pairwise (fun a b => a.Spec.RiskIndex < b.Spec.RiskIndex) := by
  have hne := List.pairwise_map.mp (sortSlice_nodup _ items hrisk)
  exact ((sortSlice_ascending items).and hne).imp (fun h => lt_of_le_of_ne h.1 h.2)

theorem getByName_mem (items : List Policy) (hname : (items.map (fun p => p.Name)).Nodup)
    (P : Policy) (hP : P ∈ items) : getByName items P.Name = Result.ok P := by
  have hfind : items.find? (fun p => decide (p.Name = P.Name)) = some P := by
    induction items with
    | nil => cases hP
    | cons a l ih =>
      rw [List.map_cons, List.nodup_cons] at hname
      by_cases ha : a.Name = P.Name
      · have haP : a = P := by
          rcases List.mem_cons.mp hP with h | h
          · exact h.symm
          · exact absurd (ha ▸ List.mem_map_of_mem (fun p => p.Name) h) hname.1
        simp [List.find?, haP]
      · have hPl : P ∈ l := by
          rcases List.mem_cons.mp hP with h | h
          · exact absurd (h ▸ rfl) ha
          · exact h
        simp only [List.find?, ha, decide_False]
        exact ih hname.2 hPl
  simp [getByName, hfind]

theorem GetNextPolicyByName_storeOf (items : List Policy) (name : String) (P : Policy)
    (h : getByName items name = Result.ok P) :
    GetNextPolicyByName (storeOf items) name =
      nextLoop (sortSlice less items) (fun policy => decide (policy.Name = P.Name)) 0
        (sortSlice less items) := by
  simp [GetNextPolicyByName, GetPolicyByName, GetSortedPolicies, storeOf, h]

theorem GetPreviousPolicyByName_storeOf (items : List Policy) (name : String) (P : Policy)
    (h : getByName items name = Result.ok P) :
    GetPreviousPolicyByName (storeOf items) name =
      prevLoop (sortSlice less items) (fun policy => decide (policy.Name = P.Name)) 0
        (sortSlice less items) (Nat.zero_add _) := by
  simp [GetPreviousPolicyByName, GetPolicyByName, GetSortedPolicies, storeOf, h]

theorem mem_of_sorted_eq (items pre post : List Policy) (P : Policy)
    (hs : sortSlice less items = pre ++ P :: post) : P ∈ items :=
  (sortSlice_perm less items).subset (hs ▸ List.mem_append_right pre (List.mem_cons_self P post))

/-- On a ladder with distinct keys, both next-step operations return the entry
right after `P` in the sorted listing. -/
theorem next_step (items pre post : List Policy) (P Q : Policy)
    (hrisk : (items.map (fun p => p.Spec.RiskIndex)).Nodup)
    (hname : (items.map (fun p => p.Name)).Nodup)
    (hs : sortSlice less items = pre ++ P :: Q :: post) :
    GetNextPolicy (storeOf items) P = Result.ok Q ∧
      GetNextPolicyByName (storeOf items) P.Name = Result.ok Q := by
  have hP := mem_of_sorted_eq items pre (Q :: post) P hs
  have hr := sortSlice_nodup _ items hrisk
  have hn := sortSlice_nodup _ items hname
  rw [hs] at hr hn
  constructor
  · show nextLoop (sortSlice less items) _ 0 (sortSlice less items) = _
    rw [hs]
    exact nextLoop_hit _ _ [] pre P Q post rfl
      (fun r hr2 => by simpa using key_ne_of_nodup _ pre (Q :: post) P hr r hr2) (by simp)
  · rw [GetNextPolicyByName_storeOf items P.Name P (getByName_mem items hname P hP), hs]
    exact nextLoop_hit _ _ [] pre P Q post rfl
      (fun r hr2 => by simpa using key_ne_of_nodup _ pre (Q :: post) P hn r hr2) (by simp)

/-- On a ladder with distinct keys, both next-step operations fail at the last
entry of the sorted listing. -/
theorem next_last (items pre : List Policy) (P : Policy)
    (hrisk : (items.map (fun p => p.Spec.RiskIndex)).Nodup)
    (hname : (items.map (fun p => p.Name)).Nodup)
    (hs : sortSlice less items = pre ++ [P]) :
    GetNextPolicy (storeOf items) P = Result.err NO_NEXT_POLICY_FOUND_ERR ∧
      GetNextPolicyByName (storeOf items) P.Name = Result.err NO_NEXT_POLICY_FOUND_ERR := by
  have hP := mem_of_sorted_eq items pre [] P hs
  have hr := sortSlice_nodup _ items hrisk
  have hn := sortSlice_nodup _ items hname
  rw [hs] at hr hn
  constructor
  · show nextLoop (sortSlice less items) _ 0 (sortSlice less items) = _
    rw [hs]
    exact nextLoop_hit_last _ _ [] pre P rfl
      (fun r hr2 => by simpa using key_ne_of_nodup _ pre [] P hr r hr2)
  · rw [GetNextPolicyByName_storeOf items P.Name P (getByName_mem items hname P hP), hs]
    exact nextLoop_hit_last _ _ [] pre P rfl
      (fun r hr2 => by simpa using key_ne_of_nodup _ pre [] P hn r hr2)

/-- On a ladder with distinct names, the previous-step operation returns the
entry right before `P` in the sorted listing. -/
theorem prev_step (items pre post : List Policy) (Q P : Policy)
    (hname : (items.map (fun p => p.Name)).Nodup)
    (hs : sortSlice less items = pre ++ Q :: P :: post) :
    GetPreviousPolicyByName (storeOf items) P.Name = Result.ok Q := by
  have hs2 : sortSlice less items = (pre ++ [Q]) ++ P :: post := by simp [hs]
  have hP := mem_of_sorted_eq items _ post P hs2
  have hn := sortSlice_nodup _ items hname
  rw [hs2] at hn
  have hne := key_ne_of_nodup _ (pre ++ [Q]) post P hn
  rw [GetPreviousPolicyByName_storeOf items P.Name P (getByName_mem items hname P hP)]
  generalize hlen : Nat.zero_add (sortSlice less items).length = hl
  clear hlen
  revert hl
  rw [hs]
  intro hl
  exact prevLoop_hit _ _ [] pre Q P post rfl
    (fun r hr2 => by simpa using hne r (List.mem_append_left _ hr2))
    (by simpa using hne Q (by simp)) (by simp) hl

/-- The previous-step operation fails at the first entry of the sorted listing. -/
theorem prev_first (items post : List Policy) (P : Policy)
    (hname : (items.map (fun p => p.Name)).Nodup)
    (hs : sortSlice less items = P :: post) :
    GetPreviousPolicyByName (storeOf items) P.Name = Result.err NO_PREV_POLICY_FOUND_ERR := by
  have hP := mem_of_sorted_eq items [] post P hs
  rw [GetPreviousPolicyByName_storeOf items P.Name P (getByName_mem items hname P hP)]
  generalize hlen : Nat.zero_add (sortSlice less items).length = hl
  clear hlen
  revert hl
  rw [hs]
  intro hl
  exact prevLoop_first _ _ P post (by simp) hl

theorem ladder_split (items : List Policy) (P : Policy) (hP : P ∈ items)
    (hrisk : (items.map (fun p => p.Spec.RiskIndex)).Nodup) :
    ∃ pre post, sortSlice less items = pre ++ P :: post ∧
      (∀ a ∈ pre, a.Spec.RiskIndex < P.Spec.RiskIndex) ∧
      (∀ b ∈ post, P.Spec.RiskIndex < b.Spec.RiskIndex) ∧
      pre.Pairwise (fun a b => a.Spec.RiskIndex < b.Spec.RiskIndex) ∧
      post.Pairwise (fun a b => a.Spec.RiskIndex < b.Spec.RiskIndex) := by
  obtain ⟨pre, post, hs⟩ := List.append_of_mem ((sortSlice_perm less items).symm.subset hP)
  have hstrict := sortSlice_strict items hrisk
  rw [hs] at hstrict
  obtain ⟨hpre, hPpost, hcross⟩ := List.pairwise_append.mp hstrict
  obtain ⟨hPlt, hpost⟩ := List.pairwise_cons.mp hPpost
  exact ⟨pre, post, hs, fun a ha => hcross a ha P (List.mem_cons_self P post), hPlt, hpre, hpost⟩

theorem mem_sorted_cases (items pre post : List Policy) (P X : Policy)
    (hs : sortSlice less items = pre ++ P :: post) (hX : X ∈ items) :
    X ∈ pre ∨ X = P ∨ X ∈ post := by
  have hXs : X ∈ sortSlice less items := (sortSlice_perm less items).symm.subset hX
  rw [hs] at hXs
  rcases List.mem_append.mp hXs with h | h
  · exact Or.inl h
  · exact Or.inr (List.mem_cons.mp h)

/-! ## Stepping along the ladder -/

/-- C1: on a policy set with unique riskIndex values and unique names, for a
member `P` that is not of maximum riskIndex, `GetNextPolicy P` and
`GetNextPolicyByName P.Name` both succeed with the same member `Q`, whose
riskIndex is strictly greater than that of `P` and such that no member has a
riskIndex strictly between the two. -/
theorem next_policy_single_step (items : List Policy)
    (hrisk : (items.map (fun p => p.Spec.RiskIndex)).Nodup)
    (hname : (items.map (fun p => p.Name)).Nodup)
    (P : Policy) (hP : P ∈ items)
    (hnotmax : ∃ M ∈ items, P.Spec.RiskIndex < M.Spec.RiskIndex) :
    ∃ Q, GetNextPolicy (storeOf items) P = Result.ok Q ∧
      GetNextPolicyByName (storeOf items) P.Name = Result.ok Q ∧
      Q ∈ items ∧ P.Spec.RiskIndex < Q.Spec.RiskIndex ∧
      ∀ X ∈ items,
        ¬ (P.Spec.RiskIndex < X.Spec.RiskIndex ∧ X.Spec.RiskIndex < Q.Spec.RiskIndex) := by
  obtain ⟨pre, post, hs, hpre, hpost, -, hpw⟩ := ladder_split items P hP hrisk
  obtain ⟨M, hM, hlt⟩ := hnotmax
  cases post with
  | nil =>
    rcases mem_sorted_cases items pre [] P M hs hM with h | h | h
    · exact absurd (hpre M h) (not_lt_of_gt hlt)
    · exact absurd (h ▸ hlt) (lt_irrefl _)
    · cases h
  | cons Q post =>
    obtain ⟨h1, h2⟩ := next_step items pre post P Q hrisk hname hs
    have hQ : Q ∈ items := mem_of_sorted_eq items (pre ++ [P]) post Q (by simp [hs])
    have hPQ := hpost Q (List.mem_cons_self Q post)
    refine ⟨Q, h1, h2, hQ, hPQ, ?_⟩
    intro X hX hbetween
    rcases mem_sorted_cases items pre (Q :: post) P X hs hX with h | h | h
    · exact absurd (hpre X h) (not_lt_of_gt hbetween.1)
    · exact absurd (h ▸ hbetween.1) (lt_irrefl _)
    · rcases List.mem_cons.mp h with h | h
      · exact absurd (h ▸ hbetween.2) (lt_irrefl _)
      · exact absurd ((List.pairwise_cons.mp hpw).1 X h) (not_lt_of_gt hbetween.2)

theorem next_policy_single_step_witness :
    ∃ Q, GetNextPolicy (storeOf scenario) policyA = Result.ok Q ∧
      GetNextPolicyByName (storeOf scenario) policyA.Name = Result.ok Q ∧
      Q ∈ scenario ∧ policyA.Spec.RiskIndex < Q.Spec.RiskIndex ∧
      ∀ X ∈ scenario,
        ¬ (policyA.Spec.RiskIndex < X.Spec.RiskIndex ∧
            X.Spec.RiskIndex < Q.Spec.RiskIndex) :=
  next_policy_single_step scenario (by decide) (by decide) policyA (by decide)
    ⟨policyB, by decide, by decide⟩

/-- C2: on a policy set with unique riskIndex values and unique names, for a
member `P` that is not of minimum riskIndex, `GetPreviousPolicyByName P.Name`
succeeds with a member `Q` whose riskIndex is strictly less than that of `P`
and such that no member has a riskIndex strictly between the two. -/
theorem previous_policy_single_step (items : List Policy)
    (hrisk : (items.map (fun p => p.Spec.RiskIndex)).Nodup)
    (hname : (items.map (fun p => p.Name)).Nodup)
    (P : Policy) (hP : P ∈ items)
    (hnotmin : ∃ M ∈ items, M.Spec.RiskIndex < P.Spec.RiskIndex) :
    ∃ Q, GetPreviousPolicyByName (storeOf items) P.Name = Result.ok Q ∧
      Q ∈ items ∧ Q.Spec.RiskIndex < P.Spec.RiskIndex ∧
      ∀ X ∈ items,
        ¬ (Q.Spec.RiskIndex < X.Spec.RiskIndex ∧ X.Spec.RiskIndex < P.Spec.RiskIndex) := by
  obtain ⟨pre, post, hs, hpre, hpost, hpw, -⟩ := ladder_split items P hP hrisk
  obtain ⟨M, hM, hlt⟩ := hnotmin
  rcases List.eq_nil_or_concat pre with hnil | ⟨pre2, Q, hcat⟩
  · subst hnil
    rcases mem_sorted_cases items [] post P M hs hM with h | h | h
    · cases h
    · exact absurd (h ▸ hlt) (lt_irrefl _)
    · exact absurd (hpost M h) (not_lt_of_gt hlt)
  · rw [List.concat_eq_append] at hcat
    subst hcat
    have hs2 : sortSlice less items = pre2 ++ Q :: P :: post := by simp [hs]
    have hQ : Q ∈ items := mem_of_sorted_eq items pre2 (P :: post) Q hs2
    have hQP := hpre Q (by simp)
    refine ⟨Q, prev_step items pre2 post Q P hname hs2, hQ, hQP, ?_⟩
    intro X hX hbetween
    rcases mem_sorted_cases items (pre2 ++ [Q]) post P X hs hX with h | h | h
    · rcases List.mem_append.mp h with h | h
      · have hXQ := (List.pairwise_append.mp hpw).2.2 X h Q (by simp)
        exact absurd hXQ (not_lt_of_gt hbetween.1)
      · have hXQ : X = Q := by simpa using h
        exact absurd (hXQ ▸ hbetween.1) (lt_irrefl _)
    · exact absurd (h ▸ hbetween.2) (lt_irrefl _)
    · exact absurd (hpost X h) (not_lt_of_gt hbetween.2)

theorem previous_policy_single_step_witness :
    ∃ Q, GetPreviousPolicyByName (storeOf scenario) policyC.Name = Result.ok Q ∧
      Q ∈ scenario ∧ Q.Spec.RiskIndex < policyC.Spec.RiskIndex ∧
      ∀ X ∈ scenario,
        ¬ (Q.Spec.RiskIndex < X.Spec.RiskIndex ∧
            X.Spec.RiskIndex < policyC.Spec.RiskIndex) :=
  previous_policy_single_step scenario (by decide) (by decide) policyC (by decide)
    ⟨policyB, by decide, by decide⟩

/-- C3: on a policy set with unique riskIndex values and unique names (and
non-empty, since it has members), `GetNextPolicy` and `GetNextPolicyByName`
applied to the member of maximum riskIndex return no policy and
`NO_NEXT_POLICY_FOUND_ERR`, and `GetPreviousPolicyByName` applied to the name
of the member of minimum riskIndex returns no policy and
`NO_PREV_POLICY_FOUND_ERR`: the step is not clamped to the boundary entry. -/
theorem boundary_step_fails (items : List Policy)
    (hrisk : (items.map (fun p => p.Spec.RiskIndex)).Nodup)
    (hname : (items.map (fun p => p.Name)).Nodup)
    (Pmax : Policy) (hPmax : Pmax ∈ items)
    (hmax : ∀ X ∈ items, X.Spec.RiskIndex ≤ Pmax.Spec.RiskIndex)
    (Pmin : Policy) (hPmin : Pmin ∈ items)
    (hmin : ∀ X ∈ items, Pmin.Spec.RiskIndex ≤ X.Spec.RiskIndex) :
    GetNextPolicy (storeOf items) Pmax = Result.err NO_NEXT_POLICY_FOUND_ERR ∧
      GetNextPolicyByName (storeOf items) Pmax.Name = Result.err NO_NEXT_POLICY_FOUND_ERR ∧
      GetPreviousPolicyByName (storeOf items) Pmin.Name =
        Result.err NO_PREV_POLICY_FOUND_ERR := by
  refine ⟨?_, ?_, ?_⟩
  · obtain ⟨pre, post, hs, -, hpost, -, -⟩ := ladder_split items Pmax hPmax hrisk
    cases post with
    | nil => exact (next_last items pre Pmax hrisk hname hs).1
    | cons Q post =>
      have hQ : Q ∈ items := mem_of_sorted_eq items (pre ++ [Pmax]) post Q (by simp [hs])
      exact absurd (hpost Q (List.mem_cons_self Q post)) (not_lt_of_ge (hmax Q hQ))
  · obtain ⟨pre, post, hs, -, hpost, -, -⟩ := ladder_split items Pmax hPmax hrisk
    cases post with
    | nil => exact (next_last items pre Pmax hrisk hname hs).2
    | cons Q post =>
      have hQ : Q ∈ items := mem_of_sorted_eq items (pre ++ [Pmax]) post Q (by simp [hs])
      exact absurd (hpost Q (List.mem_cons_self Q post)) (not_lt_of_ge (hmax Q hQ))
  · obtain ⟨pre, post, hs, hpre, -, -, -⟩ := ladder_split items Pmin hPmin hrisk
    cases pre with
    | nil => exact prev_first items post Pmin hname hs
    | cons Q pre =>
      have hQ : Q ∈ items := mem_of_sorted_eq items [] (pre ++ Pmin :: post) Q (by simp [hs])
      exact absurd (hpre Q (List.mem_cons_self Q pre)) (not_lt_of_ge (hmin Q hQ))

theorem boundary_step_fails_witness :
    GetNextPolicy (storeOf scenario) policyC = Result.err NO_NEXT_POLICY_FOUND_ERR ∧
      GetNextPolicyByName (storeOf scenario) policyC.Name =
        Result.err NO_NEXT_POLICY_FOUND_ERR ∧
      GetPreviousPolicyByName (storeOf scenario) policyA.Name =
        Result.err NO_PREV_POLICY_FOUND_ERR :=
  boundary_step_fails scenario (by decide) (by decide)
    policyC (by decide) (by decide) policyA (by decide) (by decide)

/-- C4: on a policy set with unique riskIndex values and unique names, for a
member `P`, if `GetNextPolicy P` succeeds with `Q` and
`GetPreviousPolicyByName Q.Name` succeeds with `R`, then `R = P`. -/
theorem previous_of_next (items : List Policy)
    (hrisk : (items.map (fun p => p.Spec.RiskIndex)).Nodup)
    (hname : (items.map (fun p => p.Name)).Nodup)
    (P Q R : Policy) (hP : P ∈ items)
    (hnext : GetNextPolicy (storeOf items) P = Result.ok Q)
    (hprev : GetPreviousPolicyByName (storeOf items) Q.Name = Result.ok R) :
    R = P := by
  obtain ⟨pre, post, hs, -, -, -, -⟩ := ladder_split items P hP hrisk
  cases post with
  | nil =>
    rw [(next_last items pre P hrisk hname hs).1] at hnext
    cases hnext
  | cons Q2 post =>
    rw [(next_step items pre post P Q2 hrisk hname hs).1] at hnext
    cases hnext
    rw [prev_step items pre post P Q hname hs] at hprev
    cases hprev
    rfl

theorem previous_of_next_witness :
    GetNextPolicy (storeOf scenario) policyA = Result.ok policyB ∧
      GetPreviousPolicyByName (storeOf scenario) policyB.Name = Result.ok policyA ∧
      policyA = policyA :=
  ⟨by decide, by decide,
    previous_of_next scenario (by decide) (by decide) policyA policyB policyA
      (by decide) (by decide) (by decide)⟩

/-! ## Listing, safest and default policy -/

/-- C5: when the listing succeeds, `GetSortedPolicies` returns a permutation of
the listed policies (same entries, same multiplicity) in which every entry has
a riskIndex less than or equal to that of the entry right after it. -/
theorem sorted_policies_perm_ascending (ps : Client) (items : List Policy)
    (hlist : ps.List = Result.ok items) :
    ∃ sorted, GetSortedPolicies ps = Result.ok sorted ∧ sorted.Perm items ∧
      ∀ (i : Nat) (h : i + 1 < sorted.length),
        (sorted.get ⟨i, Nat.lt_of_succ_lt h⟩).Spec.RiskIndex ≤
          (sorted.get ⟨i + 1, h⟩).Spec.RiskIndex := by
  refine ⟨sortSlice less items, ?_, sortSlice_perm less items, ?_⟩
  · simp [GetSortedPolicies, hlist]
  · intro i h
    exact List.pairwise_iff_getElem.mp (sortSlice_ascending items) i (i + 1)
      (Nat.lt_of_succ_lt h) h (Nat.lt_succ_self i)

theorem sorted_policies_perm_ascending_witness :
    ∃ sorted, GetSortedPolicies (storeOf scenario) = Result.ok sorted ∧
      sorted.Perm scenario ∧
      ∀ (i : Nat) (h : i + 1 < sorted.length),
        (sorted.get ⟨i, Nat.lt_of_succ_lt h⟩).Spec.RiskIndex ≤
          (sorted.get ⟨i + 1, h⟩).Spec.RiskIndex :=
  sorted_policies_perm_ascending (storeOf scenario) scenario rfl

theorem sortSlice_ne_nil (items : List Policy) (h : items ≠ []) :
    sortSlice less items ≠ [] := by
  intro hnil
  have hp := sortSlice_perm less items
  rw [hnil] at hp
  exact h (List.Perm.nil_eq hp).symm

/-- C6: when the listing succeeds, `GetSafestPolicy` fails exactly when the
policy set is empty, then with the error "no policies found"; on a non-empty
set it returns a member whose riskIndex is less than or equal to that of every
member. -/
theorem safest_policy_minimum (ps : Client) (items : List Policy)
    (hlist : ps.List = Result.ok items) :
    ((∃ e, GetSafestPolicy ps = Result.err e) ↔ items = []) ∧
      (items = [] → GetSafestPolicy ps = Result.err (Error.text "no policies found")) ∧
      (items ≠ [] → ∃ p, GetSafestPolicy ps = Result.ok p ∧ p ∈ items ∧
        ∀ q ∈ items, p.Spec.RiskIndex ≤ q.Spec.RiskIndex) := by
  have hempty : items = [] →
      GetSafestPolicy ps = Result.err (Error.text "no policies found") := by
    intro h
    simp [GetSafestPolicy, hlist, h]
  have hfull : items ≠ [] → ∃ p, GetSafestPolicy ps = Result.ok p ∧ p ∈ items ∧
      ∀ q ∈ items, p.Spec.RiskIndex ≤ q.Spec.RiskIndex := by
    intro h
    have hasc := sortSlice_ascending items
    have hperm := sortSlice_perm less items
    have hlen : ¬ items.length = 0 := fun h0 => h (List.length_eq_zero.mp h0)
    cases hs : sortSlice less items with
    | nil => exact absurd hs (sortSlice_ne_nil items h)
    | cons p rest =>
      rw [hs] at hasc hperm
      refine ⟨p, ?_, hperm.subset (List.mem_cons_self p rest), ?_⟩
      · simp [GetSafestPolicy, hlist, hlen, hs]
      · intro q hq
        rcases List.mem_cons.mp (hperm.symm.subset hq) with h1 | h1
        · rw [h1]
        · exact (List.pairwise_cons.mp hasc).1 q h1
  refine ⟨⟨?_, fun h => ⟨_, hempty h⟩⟩, hempty, hfull⟩
  rintro ⟨e, he⟩
  by_contra hne
  obtain ⟨p, hp, -⟩ := hfull hne
  rw [hp] at he
  cases he

theorem safest_policy_minimum_witness :
    ((∃ e, GetSafestPolicy (storeOf scenario) = Result.err e) ↔ scenario = []) ∧
      (scenario = [] →
        GetSafestPolicy (storeOf scenario) = Result.err (Error.text "no policies found")) ∧
      (scenario ≠ [] → ∃ p, GetSafestPolicy (storeOf scenario) = Result.ok p ∧ p ∈ scenario ∧
        ∀ q ∈ scenario, p.Spec.RiskIndex ≤ q.Spec.RiskIndex) :=
  safest_policy_minimum (storeOf scenario) scenario rfl

theorem defaultLoop_first_flagged (l : List Policy)
    (hflag : ∃ d ∈ l, d.Spec.IsDefault = true) (hasc : Ascending l) :
    ∃ p, defaultLoop l = Result.ok p ∧ p ∈ l ∧ p.Spec.IsDefault = true ∧
      ∀ q ∈ l, q.Spec.IsDefault = true → p.Spec.RiskIndex ≤ q.Spec.RiskIndex := by
  induction l with
  | nil =>
    obtain ⟨d, hd, -⟩ := hflag
    cases hd
  | cons a l ih =>
    obtain ⟨hal, hl⟩ := List.pairwise_cons.mp hasc
    by_cases ha : a.Spec.IsDefault = true
    · refine ⟨a, by simp [defaultLoop, isDefault, ha], List.mem_cons_self a l, ha, ?_⟩
      intro q hq _
      rcases List.mem_cons.mp hq with h | h
      · rw [h]
      · exact hal q h
    · have hflag2 : ∃ d ∈ l, d.Spec.IsDefault = true := by
        obtain ⟨d, hd, hdd⟩ := hflag
        rcases List.mem_cons.mp hd with h | h
        · exact absurd (h ▸ hdd) ha
        · exact ⟨d, h, hdd⟩
      obtain ⟨p, hp, hpl, hpd, hpmin⟩ := ih hflag2 hl
      refine ⟨p, by simp [defaultLoop, isDefault, ha, hp], List.mem_cons_of_mem a hpl, hpd, ?_⟩
      intro q hq hqd
      rcases List.mem_cons.mp hq with h | h
      · exact absurd (h ▸ hqd) ha
      · exact hpmin q h hqd

/-- C7: when the listing succeeds on a policy set holding at least one policy
with `isDefault = true` (several may be flagged), `GetDefaultPolicy` succeeds
with a member that is flagged and whose riskIndex is less than or equal to
that of every flagged member. -/
theorem default_policy_lowest_flagged (ps : Client) (items : List Policy)
    (hlist : ps.List = Result.ok items)
    (hflag : ∃ d ∈ items, d.Spec.IsDefault = true) :
    ∃ p, GetDefaultPolicy ps = Result.ok p ∧ p ∈ items ∧ p.Spec.IsDefault = true ∧
      ∀ q ∈ items, q.Spec.IsDefault = true → p.Spec.RiskIndex ≤ q.Spec.RiskIndex := by
  have hperm := sortSlice_perm less items
  have hflag2 : ∃ d ∈ sortSlice less items, d.Spec.IsDefault = true := by
    obtain ⟨d, hd, hdd⟩ := hflag
    exact ⟨d, hperm.symm.subset hd, hdd⟩
  obtain ⟨p, hp, hps, hpd, hpmin⟩ :=
    defaultLoop_first_flagged (sortSlice less items) hflag2 (sortSlice_ascending items)
  have hlen : ¬ items.length = 0 := by
    obtain ⟨d, hd, -⟩ := hflag
    intro h0
    rw [List.length_eq_zero.mp h0] at hd
    cases hd
  refine ⟨p, ?_, hperm.subset hps, hpd, fun q hq hqd => hpmin q (hperm.symm.subset hq) hqd⟩
  simp [GetDefaultPolicy, hlist, hlen, hp]

theorem default_policy_lowest_flagged_witness :
    ∃ p, GetDefaultPolicy (storeOf twoDefaults) = Result.ok p ∧ p ∈ twoDefaults ∧
      p.Spec.IsDefault = true ∧
      ∀ q ∈ twoDefaults, q.Spec.IsDefault = true → p.Spec.RiskIndex ≤ q.Spec.RiskIndex :=
  default_policy_lowest_flagged (storeOf twoDefaults) twoDefaults rfl
    ⟨policyD, by decide, by decide⟩

theorem defaultLoop_none_flagged (l : List Policy)
    (hnone : ∀ p ∈ l, p.Spec.IsDefault = false) :
    defaultLoop l = Result.err (Error.text "No default policy found") := by
  induction l with
  | nil => rfl
  | cons a l ih =>
    have ha : a.Spec.IsDefault = false := hnone a (List.mem_cons_self a l)
    simp only [defaultLoop, isDefault, ha, Bool.false_eq_true, if_false]
    exact ih (fun p hp => hnone p (List.mem_cons_of_mem a hp))

/-- C8, as stated, fails on the empty policy set: there `GetDefaultPolicy`
returns the error "no policies found", which is not "No default policy found"
and is the very error `GetSafestPolicy` returns on the empty set. -/
theorem default_policy_empty_set_error :
    GetDefaultPolicy (storeOf []) = Result.err (Error.text "no policies found") ∧
      GetDefaultPolicy (storeOf []) ≠ Result.err (Error.text "No default policy found") ∧
      GetSafestPolicy (storeOf []) = Result.err (Error.text "no policies found") := by
  decide

/-- C8, amended: when the listing succeeds on a policy set with no policy
flagged `isDefault = true`, `GetDefaultPolicy` returns no policy; on a
non-empty set the error is "No default policy found", which differs from
"no policies found"; on the empty set the error is "no policies found", the
same error `GetSafestPolicy` returns there. -/
theorem default_policy_none_flagged (ps : Client) (items : List Policy)
    (hlist : ps.List = Result.ok items)
    (hnone : ∀ p ∈ items, p.Spec.IsDefault = false) :
    (items ≠ [] →
        GetDefaultPolicy ps = Result.err (Error.text "No default policy found") ∧
        GetDefaultPolicy ps ≠ Result.err (Error.text "no policies found")) ∧
      (items = [] →
        GetDefaultPolicy ps = Result.err (Error.text "no policies found") ∧
        GetSafestPolicy ps = Result.err (Error.text "no policies found")) := by
  constructor
  · intro hne
    have hlen : ¬ items.length = 0 := fun h0 => hne (List.length_eq_zero.mp h0)
    have hres : GetDefaultPolicy ps = Result.err (Error.text "No default policy found") := by
      simp only [GetDefaultPolicy, hlist, hlen, if_false]
      exact defaultLoop_none_flagged _
        (fun p hp => hnone p ((sortSlice_perm less items).subset hp))
    refine ⟨hres, ?_⟩
    rw [hres]
    decide
  · intro he
    subst he
    constructor
    · simp [GetDefaultPolicy, hlist]
    · simp [GetSafestPolicy, hlist]

theorem default_policy_none_flagged_witness :
    (noDefaults ≠ [] →
        GetDefaultPolicy (storeOf noDefaults) =
          Result.err (Error.text "No default policy found") ∧
        GetDefaultPolicy (storeOf noDefaults) ≠
          Result.err (Error.text "no policies found")) ∧
      (noDefaults = [] →
        GetDefaultPolicy (storeOf noDefaults) = Result.err (Error.text "no policies found") ∧
        GetSafestPolicy (storeOf noDefaults) = Result.err (Error.text "no policies found")) :=
  default_policy_none_flagged (storeOf noDefaults) noDefaults rfl (by decide)

/-! ## Unresolved names and store failures -/

theorem getByName_absent (items : List Policy) (name : String)
    (habsent : ∀ p ∈ items, p.Name ≠ name) :
    getByName items name = Result.err (Error.api "NotFound" name) := by
  have hfind : items.find? (fun p => decide (p.Name = name)) = none := by
    rw [List.find?_eq_none]
    intro p hp
    simpa using habsent p hp
  simp [getByName, hfind]

/-- C9, as stated, fails: for the name "Z", which matches no policy of the
scenario set, `GetNextPolicyByName` returns the NotFound error of the lookup,
not `NO_NEXT_POLICY_FOUND_ERR`. -/
theorem next_by_name_unresolved_not_no_next :
    GetNextPolicyByName (storeOf scenario) "Z" = Result.err (Error.api "NotFound" "Z") ∧
      GetNextPolicyByName (storeOf scenario) "Z" ≠ Result.err NO_NEXT_POLICY_FOUND_ERR := by
  decide

/-- C9, amended: for every policy set and every name that matches no policy of
the set, `GetPolicyByName` fails with the NotFound error of the lookup and
`GetNextPolicyByName` returns no policy and that same error, which is not
`NO_NEXT_POLICY_FOUND_ERR`. -/
theorem next_by_name_unresolved (items : List Policy) (name : String)
    (habsent : ∀ p ∈ items, p.Name ≠ name) :
    GetPolicyByName (storeOf items) name = Result.err (Error.api "NotFound" name) ∧
      GetNextPolicyByName (storeOf items) name = Result.err (Error.api "NotFound" name) ∧
      GetNextPolicyByName (storeOf items) name ≠ Result.err NO_NEXT_POLICY_FOUND_ERR := by
  have hget := getByName_absent items name habsent
  have h1 : GetPolicyByName (storeOf items) name = Result.err (Error.api "NotFound" name) := by
    simp [GetPolicyByName, storeOf, hget]
  have h2 : GetNextPolicyByName (storeOf items) name =
      Result.err (Error.api "NotFound" name) := by
    simp [GetNextPolicyByName, h1]
  refine ⟨h1, h2, ?_⟩
  rw [h2]
  intro h
  cases h

theorem next_by_name_unresolved_witness :
    GetPolicyByName (storeOf scenario) "Q" = Result.err (Error.api "NotFound" "Q") ∧
      GetNextPolicyByName (storeOf scenario) "Q" = Result.err (Error.api "NotFound" "Q") ∧
      GetNextPolicyByName (storeOf scenario) "Q" ≠ Result.err NO_NEXT_POLICY_FOUND_ERR :=
  next_by_name_unresolved scenario "Q" (by decide)

/-- C10: for every error `e`, if the listing fails with `e` then
`GetSortedPolicies`, `GetSafestPolicy`, `GetDefaultPolicy` and `GetNextPolicy`
each return no policy and exactly `e`; and if the lookup of a name fails with
`e` then `GetPolicyByName`, `GetNextPolicyByName` and
`GetPreviousPolicyByName` for that name return no policy and exactly `e`. -/
theorem store_failures_propagate (ps : Client) (e : Error) :
    (ps.List = Result.err e →
        GetSortedPolicies ps = Result.err e ∧ GetSafestPolicy ps = Result.err e ∧
        GetDefaultPolicy ps = Result.err e ∧
        ∀ currentPolicy, GetNextPolicy ps currentPolicy = Result.err e) ∧
      (∀ name, ps.Get name = Result.err e →
        GetPolicyByName ps name = Result.err e ∧
        GetNextPolicyByName ps name = Result.err e ∧
        GetPreviousPolicyByName ps name = Result.err e) := by
  constructor
  · intro hlist
    refine ⟨?_, ?_, ?_, fun currentPolicy => ?_⟩
    · simp [GetSortedPolicies, hlist]
    · simp [GetSafestPolicy, hlist]
    · simp [GetDefaultPolicy, hlist]
    · simp [GetNextPolicy, hlist]
  · intro name hget
    have h1 : GetPolicyByName ps name = Result.err e := by
      simp [GetPolicyByName, hget]
    refine ⟨h1, ?_, ?_⟩
    · simp [GetNextPolicyByName, h1]
    · simp [GetPreviousPolicyByName, h1]

theorem store_failures_propagate_witness :
    (GetSortedPolicies (failingClient unavailable) = Result.err unavailable ∧
        GetSafestPolicy (failingClient unavailable) = Result.err unavailable ∧
        GetDefaultPolicy (failingClient unavailable) = Result.err unavailable ∧
        ∀ currentPolicy,
          GetNextPolicy (failingClient unavailable) currentPolicy = Result.err unavailable) ∧
      (GetPolicyByName (failingClient unavailable) "A" = Result.err unavailable ∧
        GetNextPolicyByName (failingClient unavailable) "A" = Result.err unavailable ∧
        GetPreviousPolicyByName (failingClient unavailable) "A" = Result.err unavailable) :=
  ⟨(store_failures_propagate (failingClient unavailable) unavailable).1 rfl,
    (store_failures_propagate (failingClient unavailable) unavailable).2 "A" rfl⟩

/-! ## Relations between the stepping operations -/

/-- C15: on a policy set with unique riskIndex values and unique names, for a
member `P`, `GetNextPolicy P` (which finds `P` by riskIndex) and
`GetNextPolicyByName P.Name` (which finds it by name) return the same result:
the same policy, or both `NO_NEXT_POLICY_FOUND_ERR`. -/
theorem next_policy_agrees_with_by_name (items : List Policy)
    (hrisk : (items.map (fun p => p.Spec.RiskIndex)).Nodup)
    (hname : (items.map (fun p => p.Name)).Nodup)
    (P : Policy) (hP : P ∈ items) :
    GetNextPolicy (storeOf items) P = GetNextPolicyByName (storeOf items) P.Name ∧
      ((∃ Q, GetNextPolicy (storeOf items) P = Result.ok Q) ∨
        GetNextPolicy (storeOf items) P = Result.err NO_NEXT_POLICY_FOUND_ERR) := by
  obtain ⟨pre, post, hs, -, -, -, -⟩ := ladder_split items P hP hrisk
  cases post with
  | nil =>
    obtain ⟨h1, h2⟩ := next_last items pre P hrisk hname hs
    exact ⟨h1.trans h2.symm, Or.inr h1⟩
  | cons Q post =>
    obtain ⟨h1, h2⟩ := next_step items pre post P Q hrisk hname hs
    exact ⟨h1.trans h2.symm, Or.inl ⟨Q, h1⟩⟩

theorem next_policy_agrees_with_by_name_witness :
    GetNextPolicy (storeOf scenario) policyB =
        GetNextPolicyByName (storeOf scenario) policyB.Name ∧
      ((∃ Q, GetNextPolicy (storeOf scenario) policyB = Result.ok Q) ∨
        GetNextPolicy (storeOf scenario) policyB = Result.err NO_NEXT_POLICY_FOUND_ERR) :=
  next_policy_agrees_with_by_name scenario (by decide) (by decide) policyB (by decide)

/-- C18: on a policy set with unique riskIndex values and unique names, for a
member `P`, if `GetPreviousPolicyByName P.Name` succeeds with `Q`, then
`GetNextPolicyByName Q.Name` succeeds and returns `P`. -/
theorem next_of_previous (items : List Policy)
    (hrisk : (items.map (fun p => p.Spec.RiskIndex)).Nodup)
    (hname : (items.map (fun p => p.Name)).Nodup)
    (P Q : Policy) (hP : P ∈ items)
    (hprev : GetPreviousPolicyByName (storeOf items) P.Name = Result.ok Q) :
    GetNextPolicyByName (storeOf items) Q.Name = Result.ok P := by
  obtain ⟨pre, post, hs, -, -, -, -⟩ := ladder_split items P hP hrisk
  rcases List.eq_nil_or_concat pre with hnil | ⟨pre2, Q2, hcat⟩
  · subst hnil
    rw [prev_first items post P hname hs] at hprev
    cases hprev
  · rw [List.concat_eq_append] at hcat
    subst hcat
    have hs2 : sortSlice less items = pre2 ++ Q2 :: P :: post := by simp [hs]
    rw [prev_step items pre2 post Q2 P hname hs2] at hprev
    cases hprev
    exact (next_step items pre2 post Q P hrisk hname hs2).2

theorem next_of_previous_witness :
    GetPreviousPolicyByName (storeOf scenario) policyB.Name = Result.ok policyA ∧
      GetNextPolicyByName (storeOf scenario) policyA.Name = Result.ok policyB :=
  ⟨by decide,
    next_of_previous scenario (by decide) (by decide) policyB policyA (by decide) (by decide)⟩

theorem first_hit_split (hit : Policy → Bool) (l : List Policy)
    (h : ∃ x ∈ l, hit x = true) :
    ∃ pre p post, l = pre ++ p :: post ∧ (∀ r ∈ pre, hit r = false) ∧ hit p = true := by
  induction l with
  | nil =>
    obtain ⟨x, hx, -⟩ := h
    cases hx
  | cons a l ih =>
    by_cases ha : hit a = true
    · exact ⟨[], a, l, rfl, fun r hr => absurd hr (List.not_mem_nil r), ha⟩
    · have hl : ∃ x ∈ l, hit x = true := by
        obtain ⟨x, hx, hhx⟩ := h
        rcases List.mem_cons.mp hx with e | e
        · exact absurd (e ▸ hhx) ha
        · exact ⟨x, e, hhx⟩
      obtain ⟨pre, p, post, hl2, hpre, hp⟩ := ih hl
      refine ⟨a :: pre, p, post, by simp [hl2], ?_, hp⟩
      intro r hr
      rcases List.mem_cons.mp hr with e | e
      · rw [e]; simpa using ha
      · exact hpre r e

/-- C16: `GetNextPolicy` reads its argument only through the riskIndex: for
every client and every two policy values of equal riskIndex (whatever their
other fields, members of the set or not) the two results are equal. In
particular, when the listing holds a policy `P` of the argument's riskIndex
and a policy of greater riskIndex, the call succeeds (also for an argument
that is not itself in the set) and returns the successor: the entry `Q` right
after the first entry of that riskIndex in the sorted listing, which is the
result for `P` too, a member whose riskIndex is not below the argument's with
no member strictly between, and strictly above the argument's when riskIndex
values are unique. -/
theorem next_policy_reads_risk_only (ps : Client) (c1 c2 : Policy)
    (h : c1.Spec.RiskIndex = c2.Spec.RiskIndex) :
    GetNextPolicy ps c1 = GetNextPolicy ps c2 ∧
      ∀ (items : List Policy) (P : Policy), ps.List = Result.ok items → P ∈ items →
        P.Spec.RiskIndex = c1.Spec.RiskIndex →
        (∃ M ∈ items, P.Spec.RiskIndex < M.Spec.RiskIndex) →
        ∃ pre p Q post, GetSortedPolicies ps = Result.ok (pre ++ p :: Q :: post) ∧
          (∀ r ∈ pre, r.Spec.RiskIndex < c1.Spec.RiskIndex) ∧
          p.Spec.RiskIndex = c1.Spec.RiskIndex ∧
          GetNextPolicy ps c1 = Result.ok Q ∧ GetNextPolicy ps P = Result.ok Q ∧
          Q ∈ items ∧ c1.Spec.RiskIndex ≤ Q.Spec.RiskIndex ∧
          (∀ X ∈ items,
            ¬ (c1.Spec.RiskIndex < X.Spec.RiskIndex ∧
                X.Spec.RiskIndex < Q.Spec.RiskIndex)) ∧
          ((items.map (fun x => x.Spec.RiskIndex)).Nodup →
            c1.Spec.RiskIndex < Q.Spec.RiskIndex) := by
  constructor
  · simp only [GetNextPolicy, h]
  · intro items P hlist hP hPc hM
    have hperm := sortSlice_perm less items
    have hasc := sortSlice_ascending items
    obtain ⟨pre, p, post, hs, hpre, hp⟩ :=
      first_hit_split (fun policy => decide (policy.Spec.RiskIndex = c1.Spec.RiskIndex))
        (sortSlice less items) ⟨P, hperm.symm.subset hP, by simpa using hPc⟩
    have hpc : p.Spec.RiskIndex = c1.Spec.RiskIndex := by simpa using hp
    have hnext : GetNextPolicy ps c1 = nextLoop (sortSlice less items)
        (fun policy => decide (policy.Spec.RiskIndex = c1.Spec.RiskIndex)) 0
        (sortSlice less items) := by
      simp [GetNextPolicy, hlist]
    have hsame : GetNextPolicy ps P = GetNextPolicy ps c1 := by
      simp only [GetNextPolicy, hPc]
    have hsorted : GetSortedPolicies ps = Result.ok (sortSlice less items) := by
      simp [GetSortedPolicies, hlist]
    have hasc2 := hasc
    rw [hs] at hasc2
    obtain ⟨-, hppost, hcross⟩ := List.pairwise_append.mp hasc2
    obtain ⟨hpall, hpostpw⟩ := List.pairwise_cons.mp hppost
    have hprelt : ∀ r ∈ pre, r.Spec.RiskIndex < c1.Spec.RiskIndex := by
      intro r hr
      have hle := hcross r hr p (List.mem_cons_self p post)
      have hne : r.Spec.RiskIndex ≠ c1.Spec.RiskIndex := by simpa using hpre r hr
      omega
    obtain ⟨M, hMmem, hMlt⟩ := hM
    cases post with
    | nil =>
      rcases mem_sorted_cases items pre [] p M hs hMmem with e | e | e
      · have := hprelt M e
        omega
      · rw [e] at hMlt
        omega
      · cases e
    | cons Q post =>
      have hQ : c1.Spec.RiskIndex ≤ Q.Spec.RiskIndex := by
        have := hpall Q (List.mem_cons_self Q post)
        omega
      have hres : GetNextPolicy ps c1 = Result.ok Q := by
        rw [hnext, hs]
        exact nextLoop_hit _ _ [] pre p Q post rfl hpre hp
      refine ⟨pre, p, Q, post, by rw [hsorted, hs], hprelt, hpc, hres, hsame.trans hres,
        mem_of_sorted_eq items (pre ++ [p]) post Q (by simp [hs]), hQ, ?_, ?_⟩
      · intro X hX hbetween
        rcases mem_sorted_cases items pre (Q :: post) p X hs hX with e | e | e
        · have := hprelt X e
          omega
        · rw [e] at hbetween
          omega
        · rcases List.mem_cons.mp e with e2 | e2
          · rw [e2] at hbetween
            omega
          · have := (List.pairwise_cons.mp hpostpw).1 X e2
            omega
      · intro hnodup
        have hn := sortSlice_nodup (fun x => x.Spec.RiskIndex) items hnodup
        have hs2 : sortSlice less items = (pre ++ [p]) ++ Q :: post := by simp [hs]
        rw [hs2] at hn
        have hne := key_ne_of_nodup (fun x => x.Spec.RiskIndex) (pre ++ [p]) post Q hn p
          (by simp)
        have hne2 : p.Spec.RiskIndex ≠ Q.Spec.RiskIndex := hne
        omega

theorem next_policy_reads_risk_only_witness :
    offLadder ∉ scenario ∧
      GetNextPolicy (storeOf scenario) offLadder = Result.ok policyC ∧
      GetNextPolicy (storeOf scenario) offLadder = GetNextPolicy (storeOf scenario) policyB ∧
      ∃ pre p Q post,
        GetSortedPolicies (storeOf scenario) = Result.ok (pre ++ p :: Q :: post) ∧
          (∀ r ∈ pre, r.Spec.RiskIndex < offLadder.Spec.RiskIndex) ∧
          p.Spec.RiskIndex = offLadder.Spec.RiskIndex ∧
          GetNextPolicy (storeOf scenario) offLadder = Result.ok Q ∧
          GetNextPolicy (storeOf scenario) policyB = Result.ok Q ∧
          Q ∈ scenario ∧ offLadder.Spec.RiskIndex ≤ Q.Spec.RiskIndex ∧
          (∀ X ∈ scenario,
            ¬ (offLadder.Spec.RiskIndex < X.Spec.RiskIndex ∧
                X.Spec.RiskIndex < Q.Spec.RiskIndex)) ∧
          ((scenario.map (fun x => x.Spec.RiskIndex)).Nodup →
            offLadder.Spec.RiskIndex < Q.Spec.RiskIndex) :=
  ⟨by decide, by decide,
    (next_policy_reads_risk_only (storeOf scenario) offLadder policyB (by decide)).1,
    (next_policy_reads_risk_only (storeOf scenario) offLadder policyB (by decide)).2
      scenario policyB rfl (by decide) (by decide) ⟨policyC, by decide, by decide⟩⟩

/-- C17: on a policy set of exactly two policies with distinct names and equal
riskIndex, there is a member `P` for which `GetNextPolicy P` succeeds and
returns `P` itself, so the result has no greater riskIndex, whereas
`GetNextPolicyByName P.Name` fails with `NO_NEXT_POLICY_FOUND_ERR`. -/
theorem equal_risk_pair_step (a b : Policy) (hname : a.Name ≠ b.Name)
    (hrisk : a.Spec.RiskIndex = b.Spec.RiskIndex) :
    ∃ P ∈ [a, b], GetNextPolicy (storeOf [a, b]) P = Result.ok P ∧
      GetNextPolicyByName (storeOf [a, b]) P.Name =
        Result.err NO_NEXT_POLICY_FOUND_ERR := by
  have hsort : sortSlice less [a, b] = [a, b] := by
    simp [sortSlice, sinkLeft, less, hrisk]
  have hget : getByName [a, b] b.Name = Result.ok b := by
    simp [getByName, List.find?, hname]
  refine ⟨b, by simp, ?_, ?_⟩
  · show nextLoop (sortSlice less [a, b]) _ 0 (sortSlice less [a, b]) = _
    rw [hsort]
    simp [nextLoop, hrisk]
  · rw [GetNextPolicyByName_storeOf [a, b] b.Name b hget, hsort]
    simp [nextLoop, hname]

theorem equal_risk_pair_step_witness :
    ∃ P ∈ [policyB, policyE], GetNextPolicy (storeOf [policyB, policyE]) P = Result.ok P ∧
      GetNextPolicyByName (storeOf [policyB, policyE]) P.Name =
        Result.err NO_NEXT_POLICY_FOUND_ERR :=
  equal_risk_pair_step policyB policyE (by decide) (by decide)

/-! ## Walking the ladder enumerates it -/

theorem climb_suffix (items : List Policy)
    (hrisk : (items.map (fun p => p.Spec.RiskIndex)).Nodup)
    (hname : (items.map (fun p => p.Name)).Nodup)
    (post pre : List Policy) (current : Policy) (fuel : Nat)
    (hs : sortSlice less items = pre ++ current :: post) (hfuel : post.length + 1 ≤ fuel) :
    climb (storeOf items) fuel current =
      { visited := current :: post, steps := post.length,
        stopped := some (Result.err NO_NEXT_POLICY_FOUND_ERR) } := by
  induction post generalizing pre current fuel with
  | nil =>
    obtain ⟨f, rfl⟩ : ∃ f, fuel = f + 1 := ⟨fuel - 1, by simp at hfuel; omega⟩
    simp [climb, (next_last items pre current hrisk hname hs).2]
  | cons q post ih =>
    obtain ⟨f, rfl⟩ : ∃ f, fuel = f + 1 := ⟨fuel - 1, by simp at hfuel; omega⟩
    have hnext := (next_step items pre post current q hrisk hname hs).2
    have hrec := ih (pre ++ [current]) q f (by simp [hs]) (by simp at hfuel ⊢; omega)
    simp [climb, hnext, hrec]

/-- C14: on a non-empty policy set of `n` policies with unique riskIndex values
and unique names, the walk that starts from `GetSafestPolicy` and keeps
applying `GetNextPolicyByName` to the name of the last result (given a budget
of at least `n` calls) makes exactly `n - 1` successful calls, is ended by a
call failing with `NO_NEXT_POLICY_FOUND_ERR`, and visits exactly the sequence
`GetSortedPolicies` returns; that sequence is a permutation of the policy set
without repetition (every policy visited once) and strictly ascending by
riskIndex. -/
theorem walk_enumerates_ladder (items : List Policy) (hne : items ≠ [])
    (hrisk : (items.map (fun p => p.Spec.RiskIndex)).Nodup)
    (hname : (items.map (fun p => p.Name)).Nodup)
    (fuel : Nat) (hfuel : items.length ≤ fuel) :
    ∃ sorted, GetSortedPolicies (storeOf items) = Result.ok sorted ∧
      sorted.length = items.length ∧
      walkLadder (storeOf items) fuel =
        Result.ok { visited := sorted, steps := items.length - 1,
                    stopped := some (Result.err NO_NEXT_POLICY_FOUND_ERR) } ∧
      sorted.Perm items ∧ sorted.Nodup ∧
      sorted.Pairwise (fun a b => a.Spec.RiskIndex < b.Spec.RiskIndex) := by
  have hlen : (sortSlice less items).length = items.length :=
    (sortSlice_perm less items).length_eq
  have hnodup : (sortSlice less items).Nodup :=
    ((sortSlice_perm less items).nodup_iff).mpr (List.Nodup.of_map _ hname)
  refine ⟨sortSlice less items, rfl, hlen, ?_, sortSlice_perm less items, hnodup,
    sortSlice_strict items hrisk⟩
  have hlen0 : ¬ items.length = 0 := fun h0 => hne (List.length_eq_zero.mp h0)
  cases hs : sortSlice less items with
  | nil => exact absurd hs (sortSlice_ne_nil items hne)
  | cons first rest =>
    have hsafe : GetSafestPolicy (storeOf items) = Result.ok first := by
      simp [GetSafestPolicy, storeOf, hlen0, hs]
    have hrest : rest.length + 1 = items.length := by
      rw [← hlen, hs, List.length_cons]
    have hclimb := climb_suffix items hrisk hname rest [] first fuel (by simp [hs]) (by omega)
    have hsteps : items.length - 1 = rest.length := by omega
    simp [walkLadder, hsafe, hclimb, hsteps]

theorem walk_enumerates_ladder_witness :
    ∃ sorted, GetSortedPolicies (storeOf scenario) = Result.ok sorted ∧
      sorted.length = scenario.length ∧
      walkLadder (storeOf scenario) 3 =
        Result.ok { visited := sorted, steps := scenario.length - 1,
                    stopped := some (Result.err NO_NEXT_POLICY_FOUND_ERR) } ∧
      sorted.Perm scenario ∧ sorted.Nodup ∧
      sorted.Pairwise (fun a b => a.Spec.RiskIndex < b.Spec.RiskIndex) :=
  walk_enumerates_ladder scenario (by decide) (by decide) (by decide) 3 (by decide)

/-! ## The recommendation's configurations -/

/-- C13, as stated, fails: `invertedRecommendation` is a recommendation spec
whose target and current configuration have min 5 above max 1 and a negative
targetMetricValue, so the invariant does not hold of every value. -/
theorem hpa_configuration_invariant_fails :
    invertedRecommendation.TargetHPAConfiguration = invertedBounds ∧
      invertedRecommendation.CurrentHPAConfiguration = invertedBounds ∧
      ¬ specInvariant invertedBounds ∧
      ¬ (∀ c : HPAConfiguration, specInvariant c) := by
  have h : ¬ specInvariant invertedBounds := by
    unfold specInvariant invertedBounds
    decide
  exact ⟨rfl, rfl, h, fun hall => h (hall invertedBounds)⟩

/-- C13, amended: every `HPAConfiguration` value carried as target or current
configuration of a recommendation spec has min, max and targetMetricValue
within the range of a Go `int` (at least `-2^63`, below `2^63`); it has them
non-negative with min ≤ max exactly when its min and targetMetricValue are
non-negative and its min is at most its max, which the declaration does not
enforce. -/
theorem hpa_configuration_bounds (r : PolicyRecommendationSpec) :
    ∀ c ∈ [r.TargetHPAConfiguration, r.CurrentHPAConfiguration],
      (-9223372036854775808 ≤ c.Min.val ∧ c.Min.val < 9223372036854775808) ∧
      (-9223372036854775808 ≤ c.Max.val ∧ c.Max.val < 9223372036854775808) ∧
      (-9223372036854775808 ≤ c.TargetMetricValue.val ∧
        c.TargetMetricValue.val < 9223372036854775808) ∧
      (specInvariant c ↔
        0 ≤ c.Min.val ∧ c.Min.val ≤ c.Max.val ∧ 0 ≤ c.TargetMetricValue.val) := by
  intro c _
  refine ⟨c.Min.inRange, c.Max.inRange, c.TargetMetricValue.inRange, ?_⟩
  unfold specInvariant
  constructor
  · rintro ⟨h1, -, h3, h4⟩
    exact ⟨h1, h4, h3⟩
  · rintro ⟨h1, h2, h3⟩
    exact ⟨h1, le_trans h1 h2, h3, h2⟩

theorem hpa_configuration_bounds_witness :
    scenarioBounds ∈ [scenarioRecommendation.TargetHPAConfiguration,
        scenarioRecommendation.CurrentHPAConfiguration] ∧
      specInvariant scenarioBounds ∧
      (-9223372036854775808 ≤ scenarioBounds.Max.val ∧
        scenarioBounds.Max.val < 9223372036854775808) :=
  ⟨by decide,
    (hpa_configuration_bounds scenarioRecommendation scenarioBounds (by decide)).2.2.2.mpr
      ⟨by decide, by decide, by decide⟩,
    (hpa_configuration_bounds scenarioRecommendation scenarioBounds (by decide)).2.1⟩

/-! ## Create-or-update of the autoscaler resource -/

theorem absent_keys (reg : Registry) (w : WorkloadRef) (h : boundResource reg w = none) :
    ∀ entry ∈ reg, entry.1 ≠ w := by
  intro entry hmem
  have hfind : reg.find? (fun entry => decide (entry.1 = w)) = none := by
    simpa [boundResource] using h
  simpa using (List.find?_eq_none.mp hfind) entry hmem

theorem boundResource_created (reg : Registry) (w : WorkloadRef) (r : AutoscalerResource)
    (h : boundResource reg w = none) : boundResource (reg ++ [(w, r)]) w = some r := by
  have hfind : reg.find? (fun entry => decide (entry.1 = w)) = none := by
    simpa [boundResource] using h
  simp [boundResource, List.find?_append, hfind]

theorem resourcesOf_created (reg : Registry) (w : WorkloadRef) (r : AutoscalerResource)
    (h : boundResource reg w = none) : resourcesOf (reg ++ [(w, r)]) w = [r] := by
  have hnil : reg.filter (fun entry => decide (entry.1 = w)) = [] := by
    rw [List.filter_eq_nil_iff]
    intro entry hmem
    simpa using absent_keys reg w h entry hmem
  simp [resourcesOf, List.filter_append, hnil]

theorem update_created (reg : Registry) (w : WorkloadRef) (r : AutoscalerResource)
    (labels : List (String × String)) (max min target : Int)
    (h : boundResource reg w = none) :
    CreateOrUpdateAutoscaler (reg ++ [(w, r)]) w labels max min target =
      ("updated", reg ++ [(w, { r with
        min := min, max := max, targetMetricValue := target, labels := labels })]) := by
  have hmap : reg.map (fun entry =>
      if entry.1 = w then
        (entry.1, { entry.2 with
          min := min, max := max, targetMetricValue := target, labels := labels })
      else entry) = reg := by
    conv_rhs => rw [← List.map_id reg]
    apply List.map_congr_left
    intro entry hmem
    simp [absent_keys reg w h entry hmem]
  simp only [CreateOrUpdateAutoscaler, boundResource_created reg w r h, List.map_append, hmap]
  simp

theorem create_absent (reg : Registry) (w : WorkloadRef)
    (labels : List (String × String)) (max min target : Int)
    (h : boundResource reg w = none) :
    CreateOrUpdateAutoscaler reg w labels max min target =
      ("created", reg ++ [(w,
        { scaleTargetRef := { name := w.name, kind := w.kind },
          min := min, max := max, targetMetricValue := target, labels := labels })]) := by
  simp only [CreateOrUpdateAutoscaler, h]

theorem second_call (reg : Registry) (w : WorkloadRef)
    (labels labels2 : List (String × String)) (max min target max2 min2 target2 : Int)
    (habsent : boundResource reg w = none) :
    CreateOrUpdateAutoscaler (CreateOrUpdateAutoscaler reg w labels max min target).2
        w labels2 max2 min2 target2 =
      ("updated", reg ++ [(w,
        { scaleTargetRef := { name := w.name, kind := w.kind },
          min := min2, max := max2, targetMetricValue := target2, labels := labels2 })]) := by
  rw [create_absent reg w labels max min target habsent]
  exact update_created reg w _ labels2 max2 min2 target2 habsent

/-- C11 (on the reconciler as the specification describes it): for a workload
with no autoscaler resource in the registry, `CreateOrUpdateAutoscaler`
returns "created" and leaves for the workload one resource whose
`scaleTargetRef` names the workload and whose max, min, target and labels are
the given ones; a following call for the same workload with other bounds
returns "updated" and leaves exactly one resource for the workload, with the
new max, min and target and the same `scaleTargetRef`. -/
theorem create_then_update (reg : Registry) (w : WorkloadRef)
    (labels labels2 : List (String × String)) (max min target max2 min2 target2 : Int)
    (habsent : boundResource reg w = none) :
    (CreateOrUpdateAutoscaler reg w labels max min target).1 = "created" ∧
      resourcesOf (CreateOrUpdateAutoscaler reg w labels max min target).2 w =
        [{ scaleTargetRef := { name := w.name, kind := w.kind },
           min := min, max := max, targetMetricValue := target, labels := labels }] ∧
      (CreateOrUpdateAutoscaler (CreateOrUpdateAutoscaler reg w labels max min target).2
        w labels2 max2 min2 target2).1 = "updated" ∧
      resourcesOf (CreateOrUpdateAutoscaler
        (CreateOrUpdateAutoscaler reg w labels max min target).2
        w labels2 max2 min2 target2).2 w =
        [{ scaleTargetRef := { name := w.name, kind := w.kind },
           min := min2, max := max2, targetMetricValue := target2, labels := labels2 }] := by
  rw [second_call reg w labels labels2 max min target max2 min2 target2 habsent,
    create_absent reg w labels max min target habsent]
  exact ⟨rfl, resourcesOf_created reg w _ habsent, rfl, resourcesOf_created reg w _ habsent⟩

theorem create_then_update_witness :
    (CreateOrUpdateAutoscaler otherRegistry svc ottoscalrLabels 10 5 4).1 = "created" ∧
      resourcesOf (CreateOrUpdateAutoscaler otherRegistry svc ottoscalrLabels 10 5 4).2 svc =
        [{ scaleTargetRef := { name := svc.name, kind := svc.kind },
           min := 5, max := 10, targetMetricValue := 4, labels := ottoscalrLabels }] ∧
      (CreateOrUpdateAutoscaler (CreateOrUpdateAutoscaler otherRegistry svc ottoscalrLabels 10 5 4).2
        svc ottoscalrLabels 8 5 10).1 = "updated" ∧
      resourcesOf (CreateOrUpdateAutoscaler
        (CreateOrUpdateAutoscaler otherRegistry svc ottoscalrLabels 10 5 4).2
        svc ottoscalrLabels 8 5 10).2 svc =
        [{ scaleTargetRef := { name := svc.name, kind := svc.kind },
           min := 5, max := 8, targetMetricValue := 10, labels := ottoscalrLabels }] :=
  create_then_update otherRegistry svc ottoscalrLabels ottoscalrLabels 10 5 4 8 5 10
    (by decide)

/-- C12 (on the reconciler as the specification describes it): for a workload
with no autoscaler resource in the registry, two successive
`CreateOrUpdateAutoscaler` calls with identical arguments return "created"
and then "updated", and the registry after the second call is the registry
after the first. -/
theorem create_or_update_idempotent (reg : Registry) (w : WorkloadRef)
    (labels : List (String × String)) (max min target : Int)
    (habsent : boundResource reg w = none) :
    (CreateOrUpdateAutoscaler reg w labels max min target).1 = "created" ∧
      (CreateOrUpdateAutoscaler (CreateOrUpdateAutoscaler reg w labels max min target).2
        w labels max min target).1 = "updated" ∧
      (CreateOrUpdateAutoscaler (CreateOrUpdateAutoscaler reg w labels max min target).2
        w labels max min target).2 =
        (CreateOrUpdateAutoscaler reg w labels max min target).2 := by
  rw [second_call reg w labels labels max min target max min target habsent,
    create_absent reg w labels max min target habsent]
  exact ⟨rfl, rfl, rfl⟩

theorem create_or_update_idempotent_witness :
    (CreateOrUpdateAutoscaler otherRegistry svc ottoscalrLabels 10 5 4).1 = "created" ∧
      (CreateOrUpdateAutoscaler (CreateOrUpdateAutoscaler otherRegistry svc ottoscalrLabels 10 5 4).2
        svc ottoscalrLabels 10 5 4).1 = "updated" ∧
      (CreateOrUpdateAutoscaler (CreateOrUpdateAutoscaler otherRegistry svc ottoscalrLabels 10 5 4).2
        svc ottoscalrLabels 10 5 4).2 =
        (CreateOrUpdateAutoscaler otherRegistry svc ottoscalrLabels 10 5 4).2 :=
  create_or_update_idempotent otherRegistry svc ottoscalrLabels 10 5 4 (by decide)

end Ottoscalr
